import Mathlib

/-!
Verification development for the `parserEol` repository (Go): a paginated
catalog harvester.  The definitions below are a shallow embedding of the
program's core functions, translated from `main.go`:

* Go strings are modelled as `List Char` (rune sequences `GoStr`); raw byte
  buffers as `List Nat` (each element `< 256`).  The Go standard-library
  string functions used by the source (`strings.Split`, `strings.Contains`,
  `strings.HasPrefix`, `strconv.Atoi`) are reimplemented below with Go's
  semantics.
* HTTP, goquery selector evaluation and charset sniffing are external
  collaborators; their outputs are inputs of the embedded functions
  (a page is a structure of already-extracted items / selector verdicts,
  the sniffer is a function parameter).
* `time.Sleep` is modelled by recording the slept durations in a trace list;
  goroutine scheduling is not modelled — all properties treated here are
  per-record or per-walk and order-insensitive.
-/

/-- A Go string, viewed as its sequence of runes. -/
abbrev GoStr := List Char

namespace GoStrings

/-- Go `strings.HasPrefix(s, prefix)`: `goHasPrefix pre s` is true iff `pre`
is a prefix of `s`. -/
def goHasPrefix {α : Type} [DecidableEq α] : List α → List α → Bool
  | [], _ => true
  | _ :: _, [] => false
  | a :: as, b :: bs => a = b && goHasPrefix as bs

/-- Go `strings.Contains(s, sub)`: `sub` occurs as a contiguous
subsequence of `s`. -/
def goContains {α : Type} [DecidableEq α] : List α → List α → Bool
  | [], sub => goHasPrefix sub []
  | a :: s', sub => goHasPrefix sub (a :: s') || goContains s' sub

/-- Worker for `goSplit`, structurally recursive on a fuel argument so that
it reduces by `decide`/`rfl`; `goSplit` supplies fuel `s.length + 1`, which
is enough because every recursive call consumes at least one element of
`s`. -/
def goSplitF {α : Type} [DecidableEq α] (sep : List α) : Nat → List α → List (List α)
  | 0, s => [s]
  | _fuel + 1, [] => if sep = [] then [] else [[]]
  | fuel + 1, a :: s' =>
    if sep = [] then [a] :: goSplitF sep fuel s'
    else if goHasPrefix sep (a :: s') then
      [] :: goSplitF sep fuel ((a :: s').drop sep.length)
    else
      match goSplitF sep fuel s' with
      | [] => [[a]]
      | g :: gs => (a :: g) :: gs

/-- Go `strings.Split(s, sep)`: splits `s` around every occurrence of `sep`.
With empty `sep`, Go splits into individual runes (and `Split("", "")` is
empty); with nonempty `sep`, `Split("", sep) = [""]` and there is always at
least one piece. -/
def goSplit {α : Type} [DecidableEq α] (s sep : List α) : List (List α) :=
  goSplitF sep (s.length + 1) s

/-- Go `strconv.Atoi`: optional sign followed by at least one decimal digit;
anything else is an error (`none`).  (Go additionally errors on 64-bit
overflow; page numbers in this program are small, so overflow is not
modelled.) -/
def goAtoi (s : GoStr) : Option Int :=
  let signed : Bool × GoStr :=
    match s with
    | '+' :: rest => (false, rest)
    | '-' :: rest => (true, rest)
    | _ => (false, s)
  match signed with
  | (neg, ds) =>
    if ds = [] then none
    else if ds.all (fun c => c.isDigit) then
      let n : Nat := ds.foldl (fun acc c => acc * 10 + (c.toNat - '0'.toNat)) 0
      some (if neg then -(n : Int) else (n : Int))
    else none

end GoStrings

open GoStrings

/-- `Product` from `main.go` (field names lowered to Lean style). -/
structure Product where
  id : String
  name : String
  url : String
  description : String
  price : String
  imageURL : String
  category : String
  features : List String
  deriving DecidableEq, Repr

/-- `Category` from `main.go`.  The URL is kept as a rune list because the
pagination heuristics run Go string functions on it. -/
structure Category where
  name : String
  url : GoStr
  deriving DecidableEq, Repr

/-- The error kinds surfaced by the program (the Go code carries them as
formatted error strings; only the kind and payload matter here). -/
inductive GoError where
  /-- `doRequestWithRetry` exhausted its attempts; carries the last
  underlying error message. -/
  | network (lastErr : String)
  /-- non-2xx HTTP status observed where the code checks `resp.StatusCode`. -/
  | badStatus (code : Nat)
  /-- `goquery.NewDocumentFromReader` failure. -/
  | parseFail
  /-- `getUTF8Reader` failure. -/
  | encodingFail
  deriving DecidableEq, Repr

deriving instance DecidableEq for Except

namespace Pagination

/-- The literal `"PAGEN_2="` used by the pagination heuristics. -/
def pagen : GoStr := "PAGEN_2=".toList

/-- The literal `"&"`. -/
def amp : GoStr := "&".toList

/-- Heuristic 3 of `extractProductsFromPage`, evaluated on a single link
`href`, translated from `main.go` lines 1405–1434: if the href contains
`PAGEN_2=` then, when `category.URL` also contains `PAGEN_2=`, both page
indices are parsed (`Split` on `PAGEN_2=`, piece 1, `Split` on `&`, piece 0,
`Atoi`) and the link fires iff its index is strictly greater; when
`category.URL` does not contain `PAGEN_2=`, the link fires unconditionally. -/
def heuristic3link (categoryURL href : GoStr) : Bool :=
  if goContains href pagen then
    if goContains categoryURL pagen then
      match goSplit categoryURL pagen with
      | _ :: cpart :: _ =>
        let currentPage? := goAtoi ((goSplit cpart amp).headD [])
        match goSplit href pagen with
        | _ :: npart :: _ =>
          let nextPage? := goAtoi ((goSplit npart amp).headD [])
          match currentPage?, nextPage? with
          | some cur, some nxt => cur < nxt
          | _, _ => false
        | _ => false
      | _ => false
    else true
  else false

/-- Heuristic 3 over all `<a>` hrefs of the page (`doc.Find("a").Each`; the
callback only ever sets the flag to `true`, so the result is a disjunction
over the links). -/
def heuristic3 (links : List GoStr) (categoryURL : GoStr) : Bool :=
  links.any (heuristic3link categoryURL)

/-- The page-index value the code extracts from a URL around `PAGEN_2=`:
piece 1 of `Split(u, "PAGEN_2=")`, then piece 0 of the `&`-split, parsed by
`Atoi`.  `none` when the URL has no `PAGEN_2=` or parsing fails. -/
def pageIdx (u : GoStr) : Option Int :=
  match goSplit u pagen with
  | _ :: part :: _ => goAtoi ((goSplit part amp).headD [])
  | _ => none

end Pagination

open Pagination

/-- A parsed category page, as seen by `extractProductsFromPage`.  The
goquery selector evaluations that depend only on the external markup are
inputs: `items` is what the `[data-product-id]` extraction produced, `h1`,
`h2`, `h4`, `h5` are the verdicts of pagination heuristics 1 (explicit
next-page controls), 2 (pagination-container descendants), 4 (Bitrix
`NavPageNomer`/`NavPageCount` script markers) and 5 (`bxajaxid`/`pagen`
ajax scripts), and `links` holds the `href` of every `<a>` element, which
heuristic 3 inspects with Go string functions modelled above. -/
structure PageDoc where
  items : List Product
  h1 : Bool
  h2 : Bool
  links : List GoStr
  h4 : Bool
  h5 : Bool
  deriving DecidableEq, Repr

/-- Outcome of fetching and parsing one category page, as used by the body
of `getProductsFromCategory`: either `doRequestWithRetry` failed, or a
response arrived carrying its HTTP status and the result of
`getUTF8Reader` + `goquery.NewDocumentFromReader` (which may fail with an
encoding/parse error).  Note that the walk body never looks at the
status. -/
inductive FetchOutcome where
  | netError (e : GoError)
  | response (status : Nat) (parsed : Except GoError PageDoc)
  deriving DecidableEq

/-- `extractProductsFromPage` (`main.go` lines 1280–1466): returns the
extracted items and the pagination verdict.  The five heuristics are tried
in order and each is only evaluated when no earlier one fired; since each
can only set the flag to `true`, the verdict is their disjunction.
Heuristic 3 receives `category.URL` — not the URL of the page that was
fetched. -/
def extractProductsFromPage (doc : PageDoc) (category : Category) :
    List Product × Bool :=
  (doc.items,
    doc.h1 || doc.h2 || heuristic3 doc.links category.url || doc.h4 || doc.h5)

/-- The page loop of `getProductsFromCategory` (`main.go` lines 1223–1274),
with the per-iteration work explicit.  `site p` is the outcome of fetching
and parsing the category page with page number `p` (the code derives the
page URL from `category.URL` and `p`).  The returned `Nat` counts the page
fetches issued (`doRequestWithRetry` calls).  `fuel` is the number of loop
iterations still allowed; the caller passes `(maxPages + 1 - startPage).toNat`,
which makes the fuel run out exactly when the Go condition
`pageNum <= maxPages` turns false, since `pageNum` increases by one per
iteration.  An error on any page discards the products accumulated for the
earlier pages and returns only the error, as in the source. -/
def walkLoop (site : Int → FetchOutcome) (category : Category) :
    Nat → Int → Except GoError (List Product) × Nat
  | 0, _ => (Except.ok [], 0)
  | fuel + 1, pageNum =>
    match site pageNum with
    | FetchOutcome.netError e => (Except.error e, 1)
    | FetchOutcome.response _status parsed =>
      match parsed with
      | Except.error e => (Except.error e, 1)
      | Except.ok doc =>
        match extractProductsFromPage doc category with
        | (products, hasNextPage) =>
          if !hasNextPage || products.length == 0 then
            (Except.ok products, 1)
          else
            match walkLoop site category fuel (pageNum + 1) with
            | (Except.ok rest, n) => (Except.ok (products ++ rest), n + 1)
            | (Except.error e, n) => (Except.error e, n + 1)

/-- `getProductsFromCategory` (`main.go` lines 1209–1277): computes
`maxPages` (ceiling 100, lowered to `endPage` when `0 < endPage < 100`) and
runs the page loop from `startPage`.  Semaphore acquisition and the
inter-request sleep do not affect the result and are not modelled. -/
def getProductsFromCategory (site : Int → FetchOutcome) (category : Category)
    (startPage endPage : Int) : Except GoError (List Product) × Nat :=
  let maxPages : Int := if 0 < endPage ∧ endPage < 100 then endPage else 100
  walkLoop site category (maxPages + 1 - startPage).toNat startPage

/-! ### Fetcher: `doRequestWithRetry` -/

/-- Result of `doRequestWithRetry`: a response, or the terminal error built
after the loop (`"не удалось выполнить запрос после %d попыток: %v"`),
which wraps the last underlying error. -/
inductive RetryResult (R : Type) where
  | success (r : R)
  | exhausted (lastErr : String)
  deriving DecidableEq, Repr

/-- The retry loop of `doRequestWithRetry` (`main.go` lines 1136–1144),
with `remaining = maxRetries - i` as the structural measure.  `attempt i`
is the outcome of the `i`-th `client.Get` (0-indexed); the components of
the result are the final outcome, the number of attempts made, and the
trace of `time.Sleep` durations in order.  On each failed attempt the code
sleeps `delayMs * (i + 1)` milliseconds — including after the final
attempt, before returning the terminal error. -/
def retryAux {R : Type} (attempt : Nat → Except String R) (delayMs : Nat) :
    Nat → Nat → String → RetryResult R × Nat × List Nat
  | 0, _, lastErr => (RetryResult.exhausted lastErr, 0, [])
  | remaining + 1, i, _ =>
    match attempt i with
    | Except.ok r => (RetryResult.success r, 1, [])
    | Except.error e =>
      match retryAux attempt delayMs remaining (i + 1) e with
      | (res, n, sleeps) => (res, n + 1, delayMs * (i + 1) :: sleeps)

/-- `doRequestWithRetry(url, maxRetries, delayMs)` (`main.go` lines
1132–1147).  The initial last-error value models Go's zero `error`. -/
def doRequestWithRetry {R : Type} (attempt : Nat → Except String R)
    (maxRetries delayMs : Nat) : RetryResult R × Nat × List Nat :=
  retryAux attempt delayMs maxRetries 0 ""

/-! ### Deduplicator: `removeDuplicateProducts` -/

/-- Assignment `m[k] = v` on a Go `map`, modelled on an association list
with unique keys: overwrite in place if the key is present, append
otherwise. -/
def mapInsert : List (String × Product) → String → Product → List (String × Product)
  | [], k, v => [(k, v)]
  | (k', v') :: m, k, v =>
    if k' = k then (k, v) :: m else (k', v') :: mapInsert m k v

/-- Association-list lookup (`m[k]`). -/
def mapLookup : List (String × Product) → String → Option Product
  | [], _ => none
  | (k', v') :: m, k => if k' = k then some v' else mapLookup m k

/-- One iteration of the `removeDuplicateProducts` loop: skip a record with
empty `ID`, otherwise assign `uniqueMap[product.ID] = product`. -/
def dedupStep (m : List (String × Product)) (p : Product) :
    List (String × Product) :=
  if p.id = "" then m else mapInsert m p.id p

/-- The `uniqueMap` built by `removeDuplicateProducts` (`main.go` lines
1896–1903): iterate the input slice in order, skip records with empty `ID`,
and assign `uniqueMap[product.ID] = product` (later occurrences
overwrite). -/
def uniqueMap (products : List Product) : List (String × Product) :=
  products.foldl dedupStep []

/-- `removeDuplicateProducts` (`main.go` lines 1888–1932): the values of
`uniqueMap`.  Go's map iteration order is unspecified; this model lists the
values in key-insertion order, and only order-insensitive properties are
proved about it.  (The duplicate statistics the function prints are
diagnostics and do not influence the result.) -/
def removeDuplicateProducts (products : List Product) : List Product :=
  (uniqueMap products).map (fun kv => kv.2)

/-! ### Enrichment Merger: `enrichProductsWithDetails`, per record -/

/-- The per-record body of `enrichProductsWithDetails` (`main.go` lines
1720–1755): a record that already has at least one feature and a non-empty
description is skipped (sent back unchanged, not fetched); otherwise its
detail page is fetched — on error the record is sent back unchanged, and on
success `description` is overwritten only when the fetched value is
non-empty and `features` only when the fetched list is non-empty.
`fetchDetail` abstracts `getProductDetails` for the record's URL. -/
def enrichOne (fetchDetail : String → Except GoError Product)
    (prod : Product) : Product :=
  if 0 < prod.features.length ∧ prod.description ≠ "" then prod
  else
    match fetchDetail prod.url with
    | Except.error _ => prod
    | Except.ok details =>
      let p1 :=
        if details.description ≠ "" then
          { prod with description := details.description }
        else prod
      if 0 < details.features.length then
        { p1 with features := details.features }
      else p1

/-! ### Encoding Normalizer: `getUTF8Reader` -/

/-- Windows-1251 code points for bytes `0x80`–`0xFF` (byte `0x98` is
undefined and decodes to U+FFFD, as in `golang.org/x/text`'s charmap). -/
def win1251Table : List Nat :=
  [0x0402, 0x0403, 0x201A, 0x0453, 0x201E, 0x2026, 0x2020, 0x2021, 0x20AC,
   0x2030, 0x0409, 0x2039, 0x040A, 0x040C, 0x040B, 0x040F, 0x0452, 0x2018,
   0x2019, 0x201C, 0x201D, 0x2022, 0x2013, 0x2014, 0xFFFD, 0x2122, 0x0459,
   0x203A, 0x045A, 0x045C, 0x045B, 0x045F, 0x00A0, 0x040E, 0x045E, 0x0408,
   0x00A4, 0x0490, 0x00A6, 0x00A7, 0x0401, 0x00A9, 0x0404, 0x00AB, 0x00AC,
   0x00AD, 0x00AE, 0x0407, 0x00B0, 0x00B1, 0x0406, 0x0456, 0x0491, 0x00B5,
   0x00B6, 0x00B7, 0x0451, 0x2116, 0x0454, 0x00BB, 0x0458, 0x0405, 0x0455,
   0x0457, 0x0410, 0x0411, 0x0412, 0x0413, 0x0414, 0x0415, 0x0416, 0x0417,
   0x0418, 0x0419, 0x041A, 0x041B, 0x041C, 0x041D, 0x041E, 0x041F, 0x0420,
   0x0421, 0x0422, 0x0423, 0x0424, 0x0425, 0x0426, 0x0427, 0x0428, 0x0429,
   0x042A, 0x042B, 0x042C, 0x042D, 0x042E, 0x042F, 0x0430, 0x0431, 0x0432,
   0x0433, 0x0434, 0x0435, 0x0436, 0x0437, 0x0438, 0x0439, 0x043A, 0x043B,
   0x043C, 0x043D, 0x043E, 0x043F, 0x0440, 0x0441, 0x0442, 0x0443, 0x0444,
   0x0445, 0x0446, 0x0447, 0x0448, 0x0449, 0x044A, 0x044B, 0x044C, 0x044D,
   0x044E, 0x044F]

/-- Decode one byte under Windows-1251. -/
def win1251Byte (b : Nat) : Nat :=
  if b < 0x80 then b else win1251Table.getD (b - 0x80) 0xFFFD

/-- Windows-1252 code points for bytes `0x80`–`0x9F` (the five undefined
bytes decode to U+FFFD); bytes `0xA0`–`0xFF` coincide with Latin-1. -/
def win1252Table : List Nat :=
  [0x20AC, 0xFFFD, 0x201A, 0x0192, 0x201E, 0x2026, 0x2020, 0x2021, 0x02C6,
   0x2030, 0x0160, 0x2039, 0x0152, 0xFFFD, 0x017D, 0xFFFD, 0xFFFD, 0x2018,
   0x2019, 0x201C, 0x201D, 0x2022, 0x2013, 0x2014, 0x02DC, 0x2122, 0x0161,
   0x203A, 0x0153, 0xFFFD, 0x017E, 0x0178]

/-- Decode one byte under Windows-1252. -/
def win1252Byte (b : Nat) : Nat :=
  if b < 0x80 then b
  else if b < 0xA0 then win1252Table.getD (b - 0x80) 0xFFFD
  else b

/-- The single-byte encodings relevant here: Windows-1251 is the override
target hard-coded in `getUTF8Reader`; Windows-1252 is the usual fallback
result of `charset.DetermineEncoding` (the sniffer itself is an external
collaborator and appears only as a function parameter below). -/
inductive Enc where
  | windows1251
  | windows1252
  deriving DecidableEq, Repr

/-- Decode a byte sequence to code points under an encoding (invalid bytes
become U+FFFD, as in `golang.org/x/text`). -/
def Enc.decode : Enc → List Nat → List Nat
  | Enc.windows1251, bs => bs.map win1251Byte
  | Enc.windows1252, bs => bs.map win1252Byte

/-- UTF-8 encoding of one code point. -/
def utf8EncodeChar (c : Nat) : List Nat :=
  if c < 0x80 then [c]
  else if c < 0x800 then [0xC0 + c / 64, 0x80 + c % 64]
  else if c < 0x10000 then
    [0xE0 + c / 4096, 0x80 + (c / 64) % 64, 0x80 + c % 64]
  else
    [0xF0 + c / 262144, 0x80 + (c / 4096) % 64, 0x80 + (c / 64) % 64,
     0x80 + c % 64]

/-- UTF-8 encoding of a code-point sequence. -/
def utf8Encode (cs : List Nat) : List Nat := (cs.map utf8EncodeChar).flatten

/-- The byte sequence of the Go literal `"\xef\xbf\xbd"`. -/
def replacementMarker : List Nat := [0xEF, 0xBF, 0xBD]

/-- The charset decision of `getUTF8Reader` (`main.go` lines 1526–1544):
`charset.DetermineEncoding` sniffs an encoding from the raw bytes (`sniff`,
external), but the sniffed choice is overridden with Windows-1251 when the
raw bytes — `contentStr := string(b)` is the raw byte sequence, no decoding
happens — contain the literal `"\xef\xbf\xbd"` or the literal `"�"`
(whose Go source representation is the UTF-8 encoding of U+FFFD). -/
def getUTF8ReaderEnc (sniff : List Nat → Enc) (b : List Nat) : Enc :=
  if goContains b replacementMarker || goContains b (utf8Encode [0xFFFD]) then
    Enc.windows1251
  else sniff b

/-- Modelled from the spec, for comparison with `getUTF8ReaderEnc` (the
source has no such computation): "if the sniffed decoding, when re-encoded
to the canonical form, yields replacement-character markers" — decode the
raw bytes with the sniffed encoding, re-encode the code points as UTF-8,
and look for the replacement-character marker bytes. -/
def specSniffYieldsMarkers (e : Enc) (b : List Nat) : Bool :=
  goContains (utf8Encode (e.decode b)) replacementMarker

/-! ### Detail pages: `getProductDetails` -/

/-- The parsed detail page: the (trimmed) texts of the three description
selectors tried in order, and the texts collected by the features
selectors — all external selector evaluations. -/
structure DetailDoc where
  descMain : String
  descAlt1 : String
  descAlt2 : String
  feats : List String
  deriving DecidableEq, Repr

/-- A detail-page response: HTTP status plus the result of
`getUTF8Reader` + goquery parsing of the body. -/
structure DetailResponse where
  status : Nat
  parsed : Except GoError DetailDoc

/-- Result of `getProductDetails`: a record, an error — or a runtime panic
(out-of-range slice index), which in Go crashes the goroutine and is a
distinct outcome from returning an error. -/
inductive DetailResult where
  | ok (p : Product)
  | failed (e : GoError)
  | panicked
  deriving Repr

/-- Go slice indexing `l[i]`: `none` models the out-of-range panic. -/
def goSliceIdx? {α : Type} (l : List α) (i : Int) : Option α :=
  if h : 0 ≤ i ∧ i.toNat < l.length then some (l.get ⟨i.toNat, h.2⟩)
  else none

/-- The literal `"/"`. -/
def slashStr : GoStr := "/".toList

/-- The ID-derivation step of `getProductDetails` (`main.go` lines
1498–1502): `parts := strings.Split(url, "/")`, and under the (always-true)
guard `len(parts) > 0`, `product.ID = parts[len(parts)-2]`.  `none` models
the index-out-of-range panic when `len(parts) - 2` is negative. -/
def idFromURL (url : GoStr) : Option String :=
  let parts := goSplit url slashStr
  if 0 < parts.length then
    match goSliceIdx? parts ((parts.length : Int) - 2) with
    | some s => some s.asString
    | none => none
  else some ""

/-- `getProductDetails` (`main.go` lines 1469–1523): propagate a fetch
failure; reject a non-200 status as a distinct error; propagate
encoding/parse failures; then derive the record ID from the URL (possible
panic), pick the first non-empty description selector, and attach the
features.  The remaining fields of the returned record keep Go's zero
values. -/
def getProductDetails (fetch : RetryResult DetailResponse) (url : GoStr) :
    DetailResult :=
  match fetch with
  | RetryResult.exhausted e => DetailResult.failed (GoError.network e)
  | RetryResult.success resp =>
    if resp.status ≠ 200 then DetailResult.failed (GoError.badStatus resp.status)
    else
      match resp.parsed with
      | Except.error e => DetailResult.failed e
      | Except.ok doc =>
        match idFromURL url with
        | none => DetailResult.panicked
        | some idStr =>
          let description :=
            if doc.descMain ≠ "" then doc.descMain
            else if doc.descAlt1 ≠ "" then doc.descAlt1
            else doc.descAlt2
          DetailResult.ok
            { id := idStr, name := "", url := "", description := description,
              price := "", imageURL := "", category := "",
              features := doc.feats }

/-! ### Catalog page: `getCategories` (status handling) -/

/-- A catalog-page response: HTTP status plus the parsed category list
(the `a[href^='/catalog/']` extraction is external). -/
structure CatalogResponse where
  status : Nat
  parsed : Except GoError (List Category)

/-- URL-deduplication of discovered categories (`main.go` lines 1195–1203):
first occurrence of each URL wins. -/
def dedupeCategories : List Category → List GoStr → List Category
  | [], _ => []
  | c :: cs, seen =>
    if seen.contains c.url then dedupeCategories cs seen
    else c :: dedupeCategories cs (c.url :: seen)

/-- `getCategories` (`main.go` lines 1150–1206): propagate fetch
exhaustion; reject a non-200 status as a distinct error
(`"ошибка при получении страницы каталога: %d"`); propagate
encoding/parse failures; deduplicate the discovered categories by URL. -/
def getCategories (fetch : RetryResult CatalogResponse) :
    Except GoError (List Category) :=
  match fetch with
  | RetryResult.exhausted e => Except.error (GoError.network e)
  | RetryResult.success resp =>
    if resp.status ≠ 200 then Except.error (GoError.badStatus resp.status)
    else
      match resp.parsed with
      | Except.error e => Except.error e
      | Except.ok cats => Except.ok (dedupeCategories cats [])

/-! ## Concrete fixtures used by several witnesses and counterexamples -/

/-- A category with a URL of the shape the program builds
(`baseURL + href`), carrying no `PAGEN_2=` parameter. -/
def cat0 : Category := ⟨"Test", "https://www.stanki.ru/catalog/wood/".toList⟩

/-- A minimal extracted record. -/
def prodStub : Product := ⟨"1", "p", "", "", "", "", "", []⟩

/-- A page with no items and no pagination signals. -/
def emptyDoc : PageDoc := ⟨[], false, false, [], false, false⟩

/-- A page with one item whose heuristic-1 verdict is `true`
(the Pagination Oracle keeps saying "more"). -/
def moreDoc : PageDoc := ⟨[prodStub], true, false, [], false, false⟩

/-- A site whose every page is empty. -/
def siteEmpty : Int → FetchOutcome :=
  fun _ => FetchOutcome.response 200 (Except.ok emptyDoc)

/-- A site whose every page has one item and an always-firing oracle. -/
def siteMore : Int → FetchOutcome :=
  fun _ => FetchOutcome.response 200 (Except.ok moreDoc)

/-- The 3-page scenario of C3: pages 1–2 yield 10 records each with a firing
oracle, page 3 yields none (oracle still firing). -/
def prodN (i : Nat) : Product := ⟨toString i, "", "", "", "", "", "", []⟩

/-- Ten records for one scenario page. -/
def tenItems : List Product := (List.range 10).map prodN

/-- Scenario page with ten records and `hasNextPage = true`. -/
def page10 : PageDoc := ⟨tenItems, true, false, [], false, false⟩

/-- Scenario page with no records and `hasNextPage = true`. -/
def page0 : PageDoc := ⟨[], true, false, [], false, false⟩

/-- Scenario site: pages 1 and 2 are `page10`, every later page is
`page0`. -/
def siteScenario : Int → FetchOutcome := fun p =>
  if p ≤ 2 then FetchOutcome.response 200 (Except.ok page10)
  else FetchOutcome.response 200 (Except.ok page0)

/-- Scenario page for the C2 counterexample: items plus a single pagination
link pointing at page 2; heuristics 1, 2, 4, 5 silent. -/
def docPage2Link (items : List Product) : PageDoc :=
  ⟨items, false, false, ["/catalog/wood/?PAGEN_2=2".toList], false, false⟩

/-- Site for the C2 counterexample: pages 1 and 2 contain one item and only
the `PAGEN_2=2` link; later pages are empty. -/
def siteH3 : Int → FetchOutcome := fun p =>
  if p ≤ 2 then FetchOutcome.response 200 (Except.ok (docPage2Link [prodStub]))
  else FetchOutcome.response 200 (Except.ok (docPage2Link []))

/-- The last record in `ps` whose id is `k`, if any (later elements take
precedence). -/
def lastMatch : List Product → String → Option Product
  | [], _ => none
  | p :: ps, k =>
    match lastMatch ps k with
    | some q => some q
    | none => if p.id = k then some p else none

/-- Record `id="42"`, `name="A"`. -/
def rec42A : Product := ⟨"42", "A", "", "", "", "", "", []⟩

/-- Record `id="42"`, `name="B"`. -/
def rec42B : Product := ⟨"42", "B", "", "", "", "", "", []⟩

/-- A harvested record whose extraction produced an empty id. -/
def emptyIdProd : Product := ⟨"", "noid", "", "", "", "", "", []⟩

/-- A record with a description but no features (so it is fetched, not
skipped). -/
def prodY : Product := ⟨"7", "y", "/u/", "Y", "", "", "", []⟩

/-- A detail fetch that always fails. -/
def fetchFail : String → Except GoError Product :=
  fun _ => Except.error GoError.parseFail

/-- An attempt source that always fails with the same transport error. -/
def attemptBoom : Nat → Except String Nat := fun _ => Except.error "boom"

/-- Two fetch outcomes that agree except possibly in the HTTP status
code. -/
def sameIgnoringStatus : FetchOutcome → FetchOutcome → Prop
  | FetchOutcome.netError e, FetchOutcome.netError e' => e = e'
  | FetchOutcome.response _ p, FetchOutcome.response _ p' => p = p'
  | _, _ => False

/-- A fixed parsed detail page. -/
def detailDoc0 : DetailDoc := ⟨"D", "", "", ["f1"]⟩

/-- A site whose every page arrives with HTTP status 404 but still parses
to a one-item page with no further-page signals. -/
def site404 : Int → FetchOutcome :=
  fun _ => FetchOutcome.response 404
    (Except.ok ⟨[prodStub], false, false, [], false, false⟩)

/-! ## Go string-function lemmas -/

namespace GoStrings

theorem goHasPrefix_nil_iff {α : Type} [DecidableEq α] (sub : List α) :
    goHasPrefix sub ([] : List α) = true ↔ sub = [] := by
  cases sub <;> simp [goHasPrefix]

/-- With nonempty separator, `goSplitF` never returns the empty list
(Go's `Split` always yields at least one piece). -/
theorem goSplitF_ne_nil {α : Type} [DecidableEq α] (sep : List α) (hsep : sep ≠ []) :
    ∀ (fuel : Nat) (s : List α), goSplitF sep fuel s ≠ [] := by
  intro fuel
  induction fuel with
  | zero => intro s; simp [goSplitF]
  | succ n ih =>
    intro s
    cases s with
    | nil => simp [goSplitF, hsep]
    | cons a s' =>
      simp only [goSplitF, if_neg hsep]
      by_cases hp : goHasPrefix sep (a :: s') = true
      · simp [hp]
      · simp only [hp]
        simp only [Bool.false_eq_true, if_false]
        cases hg : goSplitF sep n s' with
        | nil => simp
        | cons g gs => simp

/-- Characterisation used throughout: with nonempty separator, the split has
more than one piece exactly when the separator occurs in the string. -/
theorem goSplitF_length_gt_one {α : Type} [DecidableEq α] (sep : List α) (hsep : sep ≠ []) :
    ∀ (fuel : Nat) (s : List α), s.length < fuel →
      (1 < (goSplitF sep fuel s).length ↔ goContains s sep = true) := by
  intro fuel
  induction fuel with
  | zero => intro s h; omega
  | succ n ih =>
    intro s hlen
    cases s with
    | nil =>
      have hnp : ¬ (goHasPrefix sep ([] : List α) = true) := by
        simp [goHasPrefix_nil_iff, hsep]
      simp [goSplitF, goContains, hsep, hnp]
    | cons a s' =>
      simp only [goSplitF, if_neg hsep]
      by_cases hp : goHasPrefix sep (a :: s') = true
      · have : goSplitF sep n ((a :: s').drop sep.length) ≠ [] :=
          goSplitF_ne_nil sep hsep n _
        simp only [hp, if_true, goContains, Bool.true_or, iff_true]
        cases hg : goSplitF sep n ((a :: s').drop sep.length) with
        | nil => exact absurd hg this
        | cons g gs => simp
      · have hlt : s'.length < n := by
          simp only [List.length_cons] at hlen; omega
        simp only [hp]
        simp only [Bool.false_eq_true, if_false]
        have hne : goSplitF sep n s' ≠ [] := goSplitF_ne_nil sep hsep n s'
        cases hg : goSplitF sep n s' with
        | nil => exact absurd hg hne
        | cons g gs =>
          have := ih s' hlt
          rw [hg] at this
          simp only [List.length_cons] at this ⊢
          simp only [goContains, hp, Bool.false_or]
          constructor
          · intro h; exact this.mp (by omega)
          · intro h; have := this.mpr h; omega

theorem goSplit_ne_nil {α : Type} [DecidableEq α] (s sep : List α) (hsep : sep ≠ []) :
    goSplit s sep ≠ [] := goSplitF_ne_nil sep hsep _ s

theorem goSplit_length_gt_one {α : Type} [DecidableEq α] (s sep : List α) (hsep : sep ≠ []) :
    1 < (goSplit s sep).length ↔ goContains s sep = true :=
  goSplitF_length_gt_one sep hsep _ s (Nat.lt_succ_self _)

end GoStrings

/-! ## Category Walker: fetch-count bounds (C1) and zero-item stop (C3) -/

/-- The page loop issues at most one fetch per unit of fuel. -/
theorem walkLoop_count_le_fuel (site : Int → FetchOutcome) (category : Category) :
    ∀ (fuel : Nat) (pageNum : Int), (walkLoop site category fuel pageNum).2 ≤ fuel := by
  intro fuel
  induction fuel with
  | zero => intro p; simp [walkLoop]
  | succ n ih =>
    intro p
    simp only [walkLoop]
    cases site p with
    | netError e => simp
    | response status parsed =>
      cases parsed with
      | error e => simp
      | ok doc =>
        simp only
        split
        · simp
        · rcases h : walkLoop site category n (p + 1) with ⟨res, cnt⟩
          have := ih (p + 1)
          rw [h] at this
          cases res <;> simp <;> omega

/--
C1 (amended): with a start page of at least 1 — the CLI default, and the
only way the Go `for pageNum <= maxPages` loop starts at a position counted
by the stated bound — the number of page fetches is at most
`min(100, endPage − startPage + 1)` (truncated at 0) when `endPage > 0`,
and at most 100 otherwise, for every site behaviour, i.e. regardless of the
Pagination Oracle's output.
-/
theorem getProductsFromCategory_fetch_bound (site : Int → FetchOutcome)
    (category : Category) (startPage endPage : Int) (h : 1 ≤ startPage) :
    ((getProductsFromCategory site category startPage endPage).2 : Int) ≤
      if 0 < endPage then max 0 (min 100 (endPage - startPage + 1)) else 100 := by
  simp only [getProductsFromCategory]
  have hb := walkLoop_count_le_fuel site category
    ((((if 0 < endPage ∧ endPage < 100 then endPage else 100) : Int) + 1 - startPage).toNat)
    startPage
  by_cases hc : 0 < endPage ∧ endPage < 100
  · rw [if_pos hc] at hb ⊢
    rw [if_pos hc.1]
    omega
  · rw [if_neg hc] at hb ⊢
    by_cases h0 : 0 < endPage
    · rw [if_pos h0]
      omega
    · rw [if_neg h0]
      omega

/-- Witness for `getProductsFromCategory_fetch_bound` at a concrete site,
category and page range. -/
theorem getProductsFromCategory_fetch_bound_witness :
    ((getProductsFromCategory siteEmpty cat0 1 0).2 : Int) ≤ 100 := by
  have h := getProductsFromCategory_fetch_bound siteEmpty cat0 1 0 (by norm_num)
  norm_num at h
  exact_mod_cast h

/-- With the always-more site, the loop spends all of its fuel. -/
theorem walkLoop_siteMore_count :
    ∀ (fuel : Nat) (pageNum : Int), (walkLoop siteMore cat0 fuel pageNum).2 = fuel := by
  intro fuel
  induction fuel with
  | zero => intro p; simp [walkLoop]
  | succ n ih =>
    intro p
    rcases hrec : walkLoop siteMore cat0 n (p + 1) with ⟨res, cnt⟩
    have hcnt := ih (p + 1)
    rw [hrec] at hcnt
    simp only at hcnt
    cases res <;>
      simp [walkLoop, siteMore, moreDoc, extractProductsFromPage, hrec, hcnt]

/--
Counterexample to C1 as stated: the claim asserts a hard ceiling of 100
page fetches for *every* category walk when `endPage ≤ 0`.  The CLI accepts
`-start-page 0`; with `startPage = 0`, `endPage = 0` the Go loop runs for
`pageNum = 0, 1, …, 100` — 101 fetches — because the ceiling is on the page
*number*, not on the page *count*.
-/
theorem getProductsFromCategory_101_fetches :
    100 < (getProductsFromCategory siteMore cat0 0 0).2 := by
  have h : (getProductsFromCategory siteMore cat0 0 0).2 = 101 := by
    show (walkLoop siteMore cat0 (((100 : Int) + 1 - 0).toNat) 0).2 = 101
    rw [walkLoop_siteMore_count]
    rfl
  omega

/--
C3: whenever the current page is fetched and parsed successfully but yields
zero extracted records, the walk stops after that page — one fetch, no
recursion — whatever the Pagination Oracle's verdict for the page
(`doc.h1`, …, `doc.h5` and `doc.links` are unconstrained).
-/
theorem walkLoop_zero_items_stops (site : Int → FetchOutcome)
    (category : Category) (fuel : Nat) (p : Int) (status : Nat) (doc : PageDoc)
    (hsite : site p = FetchOutcome.response status (Except.ok doc))
    (hzero : doc.items = []) :
    walkLoop site category (fuel + 1) p = (Except.ok [], 1) := by
  simp [walkLoop, hsite, extractProductsFromPage, hzero]

/-- Witness for `walkLoop_zero_items_stops`, applied at walk position 3 of
the scenario (remaining fuel there is 98); the surrounding conjuncts check
the claim's scenario end-to-end — the walk performs exactly 3 fetches and
the category contributes exactly the 20 records of pages 1 and 2. -/
theorem walkLoop_zero_items_stops_witness :
    walkLoop siteScenario cat0 98 3 = (Except.ok [], 1) ∧
    getProductsFromCategory siteScenario cat0 1 0 =
      (Except.ok (tenItems ++ tenItems), 3) ∧
    (tenItems ++ tenItems).length = 20 := by
  refine ⟨walkLoop_zero_items_stops siteScenario cat0 97 3 200 page0 (by decide) rfl,
    by decide, by decide⟩

/-! ## Pagination Oracle, heuristic 3 (C2) -/

/-- Per-link behaviour of heuristic 3: a link fires iff it carries a
`PAGEN_2=` parameter and either the *category URL* carries none, or both
page indices parse and the link's is strictly greater than the category
URL's. -/
theorem heuristic3link_eq_true_iff (categoryURL href : GoStr) :
    heuristic3link categoryURL href = true ↔
      goContains href pagen = true ∧
        (goContains categoryURL pagen = false ∨
          ∃ c n, pageIdx categoryURL = some c ∧ pageIdx href = some n ∧ c < n) := by
  by_cases h1 : goContains href pagen = true
  · by_cases h2 : goContains categoryURL pagen = true
    · have hlenc := (goSplit_length_gt_one categoryURL pagen (by decide)).mpr h2
      have hlenh := (goSplit_length_gt_one href pagen (by decide)).mpr h1
      rcases hsplitc : goSplit categoryURL pagen with _ | ⟨a, _ | ⟨b, rest⟩⟩ <;>
        rw [hsplitc] at hlenc
      · simp at hlenc
      · simp at hlenc
      rcases hsplith : goSplit href pagen with _ | ⟨a', _ | ⟨b', rest'⟩⟩ <;>
        rw [hsplith] at hlenh
      · simp at hlenh
      · simp at hlenh
      simp only [heuristic3link, h1, h2, if_true, pageIdx]
      rw [hsplitc, hsplith]
      simp only [List.headD_eq_head?]
      rcases hc : goAtoi ((goSplit b amp).head?.getD []) with _ | cur <;>
        rcases hn : goAtoi ((goSplit b' amp).head?.getD []) with _ | nxt <;>
          simp [hc, hn, h1, h2]
    · have h2' : goContains categoryURL pagen = false := by
        simpa using h2
      simp [heuristic3link, h1, h2']
  · have h1' : goContains href pagen = false := by simpa using h1
    simp [heuristic3link, h1']

/--
C2 (amended): heuristic 3 fires exactly when some `<a>` href on the page
carries a `PAGEN_2=` parameter and either the *category URL* carries no
`PAGEN_2=` parameter — which is the situation at every position of a walk
started from a plain category URL, whatever the current page number — or
both the category URL's and the link's page indices parse and the link's is
strictly greater.  The index the code compares against comes from
`category.URL`, not from the URL of the page currently being visited.
-/
theorem heuristic3_eq_true_iff (links : List GoStr) (categoryURL : GoStr) :
    heuristic3 links categoryURL = true ↔
      ∃ href ∈ links, goContains href pagen = true ∧
        (goContains categoryURL pagen = false ∨
          ∃ c n, pageIdx categoryURL = some c ∧ pageIdx href = some n ∧ c < n) := by
  simp only [heuristic3, List.any_eq_true, heuristic3link_eq_true_iff]

/-- Witness for `heuristic3_eq_true_iff`: on a page whose only link is
`…PAGEN_2=2` and a category URL with no page parameter, heuristic 3
fires. -/
theorem heuristic3_eq_true_iff_witness :
    heuristic3 ["/catalog/wood/?PAGEN_2=2".toList] cat0.url = true := by
  exact (heuristic3_eq_true_iff ["/catalog/wood/?PAGEN_2=2".toList] cat0.url).mpr
    ⟨"/catalog/wood/?PAGEN_2=2".toList, by simp, by decide, Or.inl (by decide)⟩

/--
Counterexample to C2 as stated: at walk position `p = 2` (reached because
page 1 fires heuristic 3), the page contains only a page-index link with
index `2 ≤ p`, so by the claim heuristic 3 must not fire and the walk must
stop after 2 fetches.  In the code heuristic 3 compares the link against
`category.URL`, which carries no `PAGEN_2=` parameter during the walk, so
it fires anyway: the walk issues a third fetch (stopping at page 3 only
because that page is empty).
-/
theorem heuristic3_fires_beyond_page2 :
    heuristic3 ["/catalog/wood/?PAGEN_2=2".toList] cat0.url = true ∧
    (getProductsFromCategory siteH3 cat0 1 3).2 = 3 := by
  constructor
  · decide
  · decide

/-! ## Deduplicator (C4, C6) -/

theorem mapLookup_insert_self (m : List (String × Product)) (k : String)
    (v : Product) : mapLookup (mapInsert m k v) k = some v := by
  induction m with
  | nil => simp [mapInsert, mapLookup]
  | cons kv m ih =>
    rcases kv with ⟨k', v'⟩
    by_cases h : k' = k
    · simp [mapInsert, mapLookup, h]
    · simp [mapInsert, mapLookup, h, ih]

theorem mapLookup_insert_ne (m : List (String × Product)) (k k' : String)
    (v : Product) (h : k' ≠ k) :
    mapLookup (mapInsert m k v) k' = mapLookup m k' := by
  induction m with
  | nil => simp [mapInsert, mapLookup, Ne.symm h]
  | cons kv₀ m ih =>
    rcases kv₀ with ⟨k₀, v₀⟩
    by_cases h0 : k₀ = k
    · subst h0
      simp [mapInsert, mapLookup, Ne.symm h]
    · by_cases h1 : k₀ = k'
      · simp [mapInsert, mapLookup, h0, h1, h]
      · simp [mapInsert, mapLookup, h0, h1, ih]

theorem mem_keys_mapInsert (m : List (String × Product)) (k a : String)
    (v : Product) :
    a ∈ (mapInsert m k v).map Prod.fst → a ∈ m.map Prod.fst ∨ a = k := by
  induction m with
  | nil =>
    intro h
    right
    simpa [mapInsert] using h
  | cons kv₀ m ih =>
    rcases kv₀ with ⟨k₀, v₀⟩
    intro h
    by_cases h0 : k₀ = k
    · simp only [mapInsert, if_pos h0, List.map_cons, List.mem_cons] at h
      rcases h with h | h
      · right; exact h
      · left
        rw [List.map_cons, List.mem_cons]
        right; exact h
    · simp only [mapInsert, if_neg h0, List.map_cons, List.mem_cons] at h
      rcases h with h | h
      · left
        rw [List.map_cons, List.mem_cons]
        left; exact h
      · rcases ih h with h' | h'
        · left
          rw [List.map_cons, List.mem_cons]
          right; exact h'
        · right; exact h'

theorem keys_nodup_mapInsert (k : String) (v : Product) :
    ∀ m : List (String × Product), (m.map Prod.fst).Nodup →
      ((mapInsert m k v).map Prod.fst).Nodup := by
  intro m
  induction m with
  | nil => intro _; simp [mapInsert]
  | cons kv₀ m ih =>
    rcases kv₀ with ⟨k₀, v₀⟩
    intro h
    rw [List.map_cons, List.nodup_cons] at h
    by_cases h0 : k₀ = k
    · subst h0
      simp only [mapInsert]
      rw [if_pos trivial, List.map_cons, List.nodup_cons]
      exact ⟨h.1, h.2⟩
    · simp only [mapInsert, if_neg h0]
      rw [List.map_cons, List.nodup_cons]
      refine ⟨fun hmem => ?_, ih h.2⟩
      rcases mem_keys_mapInsert m k k₀ v hmem with h' | h'
      · exact h.1 h'
      · exact h0 h'

theorem wf_mapInsert (k : String) (v : Product) (hv : v.id = k) (hk : k ≠ "") :
    ∀ m : List (String × Product),
      (∀ kv ∈ m, (kv : String × Product).2.id = kv.1 ∧ kv.1 ≠ "") →
      ∀ kv ∈ mapInsert m k v, (kv : String × Product).2.id = kv.1 ∧ kv.1 ≠ "" := by
  intro m
  induction m with
  | nil =>
    intro _ kv hkv
    simp only [mapInsert, List.mem_singleton] at hkv
    subst hkv
    exact ⟨hv, hk⟩
  | cons kv₀ m ih =>
    rcases kv₀ with ⟨k₀, v₀⟩
    intro hm kv hkv
    by_cases h0 : k₀ = k
    · simp only [mapInsert, if_pos h0] at hkv
      rcases List.mem_cons.mp hkv with h | h
      · subst h; exact ⟨hv, hk⟩
      · exact hm kv (List.mem_cons_of_mem _ h)
    · simp only [mapInsert, if_neg h0] at hkv
      rcases List.mem_cons.mp hkv with h | h
      · subst h; exact hm _ (List.mem_cons_self _ _)
      · exact ih (fun x hx => hm x (List.mem_cons_of_mem _ hx)) kv h

theorem length_mapInsert_le (m : List (String × Product)) (k : String)
    (v : Product) : (mapInsert m k v).length ≤ m.length + 1 := by
  induction m with
  | nil => simp [mapInsert]
  | cons kv₀ m ih =>
    rcases kv₀ with ⟨k₀, v₀⟩
    by_cases h0 : k₀ = k
    · simp only [mapInsert, if_pos h0, List.length_cons]
      omega
    · simp only [mapInsert, if_neg h0, List.length_cons]
      omega

theorem mem_iff_mapLookup :
    ∀ m : List (String × Product), (m.map Prod.fst).Nodup →
      ∀ (k : String) (v : Product), ((k, v) ∈ m ↔ mapLookup m k = some v) := by
  intro m
  induction m with
  | nil => intro _ k v; simp [mapLookup]
  | cons kv₀ m ih =>
    rcases kv₀ with ⟨k₀, v₀⟩
    intro hnd k v
    rw [List.map_cons, List.nodup_cons] at hnd
    by_cases h0 : k₀ = k
    · subst h0
      constructor
      · intro h
        rcases List.mem_cons.mp h with h | h
        · rw [Prod.mk.injEq] at h
          simp [mapLookup, h.2]
        · exact absurd (List.mem_map_of_mem Prod.fst h) hnd.1
      · intro h
        simp [mapLookup] at h
        exact List.mem_cons.mpr (Or.inl (by rw [h]))
    · have hlk : mapLookup ((k₀, v₀) :: m) k = mapLookup m k := by
        simp [mapLookup, h0]
      rw [hlk, ← ih hnd.2 k v, List.mem_cons]
      constructor
      · rintro (h | h)
        · rw [Prod.mk.injEq] at h
          exact absurd h.1.symm h0
        · exact h
      · exact fun h => Or.inr h

theorem dedupFold_length_le :
    ∀ (ps : List Product) (m : List (String × Product)),
      (ps.foldl dedupStep m).length ≤ m.length + ps.length := by
  intro ps
  induction ps with
  | nil => intro m; simp
  | cons p ps ih =>
    intro m
    rw [List.foldl_cons]
    refine le_trans (ih _) ?_
    by_cases h : p.id = ""
    · simp only [dedupStep, if_pos h, List.length_cons]
      omega
    · simp only [dedupStep, if_neg h, List.length_cons]
      have := length_mapInsert_le m p.id p
      omega

theorem dedupFold_lookup (k : String) (hk : k ≠ "") :
    ∀ (ps : List Product) (m : List (String × Product)),
      mapLookup (ps.foldl dedupStep m) k =
        match lastMatch ps k with
        | some q => some q
        | none => mapLookup m k := by
  intro ps
  induction ps with
  | nil => intro m; simp [lastMatch]
  | cons p ps ih =>
    intro m
    rw [List.foldl_cons, ih (dedupStep m p)]
    cases hl : lastMatch ps k with
    | some q => simp [lastMatch, hl]
    | none =>
      simp only [lastMatch, hl]
      by_cases hpk : p.id = k
      · have hne : p.id ≠ "" := by rw [hpk]; exact hk
        simp only [dedupStep, if_neg hne, if_pos hpk]
        rw [hpk]
        exact mapLookup_insert_self m k p
      · by_cases hpe : p.id = ""
        · simp [dedupStep, hpe, hpk, Ne.symm hk]
        · simp only [dedupStep, if_neg hpe, if_neg hpk]
          exact mapLookup_insert_ne m p.id k p (fun hh => hpk hh.symm)

theorem dedupFold_inv :
    ∀ (ps : List Product) (m : List (String × Product)),
      (m.map Prod.fst).Nodup →
      (∀ kv ∈ m, (kv : String × Product).2.id = kv.1 ∧ kv.1 ≠ "") →
      ((ps.foldl dedupStep m).map Prod.fst).Nodup ∧
        ∀ kv ∈ ps.foldl dedupStep m,
          (kv : String × Product).2.id = kv.1 ∧ kv.1 ≠ "" := by
  intro ps
  induction ps with
  | nil => intro m h1 h2; exact ⟨h1, h2⟩
  | cons p ps ih =>
    intro m h1 h2
    rw [List.foldl_cons]
    by_cases hpe : p.id = ""
    · simp only [dedupStep, if_pos hpe]
      exact ih m h1 h2
    · simp only [dedupStep, if_neg hpe]
      exact ih _ (keys_nodup_mapInsert p.id p m h1)
        (wf_mapInsert p.id p rfl hpe m h2)

theorem uniqueMap_lookup (ps : List Product) (k : String) (hk : k ≠ "") :
    mapLookup (uniqueMap ps) k = lastMatch ps k := by
  have h := dedupFold_lookup k hk ps []
  rw [uniqueMap]
  cases hl : lastMatch ps k with
  | some q => rw [hl] at h; exact h
  | none =>
    rw [hl] at h
    simpa [mapLookup] using h

theorem removeDuplicateProducts_length_le (ps : List Product) :
    (removeDuplicateProducts ps).length ≤ ps.length := by
  have h := dedupFold_length_le ps []
  simpa [removeDuplicateProducts, uniqueMap] using h

theorem removeDuplicateProducts_mem_iff (ps : List Product) (p : Product) :
    p ∈ removeDuplicateProducts ps ↔
      p.id ≠ "" ∧ lastMatch ps p.id = some p := by
  have hinv := dedupFold_inv ps [] (by simp) (by simp)
  rw [show ps.foldl dedupStep [] = uniqueMap ps from rfl] at hinv
  constructor
  · intro hmem
    rcases List.mem_map.mp hmem with ⟨kv, hkv, hkveq⟩
    have hwf := hinv.2 kv hkv
    have hid : p.id = kv.1 := by rw [← hkveq]; exact hwf.1
    have hne : p.id ≠ "" := by rw [hid]; exact hwf.2
    refine ⟨hne, ?_⟩
    have hkveq' : kv = (p.id, p) := by
      rcases kv with ⟨a, b⟩
      simp only at hkveq hid
      rw [Prod.mk.injEq]
      exact ⟨hid.symm, hkveq⟩
    rw [hkveq'] at hkv
    have hlk := (mem_iff_mapLookup (uniqueMap ps) hinv.1 p.id p).mp hkv
    rw [uniqueMap_lookup ps p.id hne] at hlk
    exact hlk
  · rintro ⟨hne, hlast⟩
    have hlk : mapLookup (uniqueMap ps) p.id = some p := by
      rw [uniqueMap_lookup ps p.id hne, hlast]
    have hmem := (mem_iff_mapLookup (uniqueMap ps) hinv.1 p.id p).mpr hlk
    exact List.mem_map.mpr ⟨(p.id, p), hmem, rfl⟩

theorem removeDuplicateProducts_ids_nodup (ps : List Product) :
    ((removeDuplicateProducts ps).map Product.id).Nodup := by
  have hinv := dedupFold_inv ps [] (by simp) (by simp)
  rw [show ps.foldl dedupStep [] = uniqueMap ps from rfl] at hinv
  simp only [removeDuplicateProducts, List.map_map]
  have hcongr : (uniqueMap ps).map (Product.id ∘ fun kv => kv.2) =
      (uniqueMap ps).map Prod.fst :=
    List.map_congr_left (fun kv hkv => (hinv.2 kv hkv).1)
  rw [hcongr]
  exact hinv.1

theorem getLast?_cons_eq_or (a : Product) (l : List Product) :
    (a :: l).getLast? = l.getLast?.or (some a) := by
  induction l generalizing a with
  | nil => rfl
  | cons b l ih =>
    rw [List.getLast?_cons_cons, ih b]
    cases hl : l.getLast? with
    | some q => simp [Option.or]
    | none => simp [Option.or]

theorem lastMatch_eq_filter_getLast? (ps : List Product) (k : String) :
    lastMatch ps k = (ps.filter (fun q => q.id = k)).getLast? := by
  induction ps with
  | nil => rfl
  | cons p ps ih =>
    by_cases hpk : p.id = k
    · rw [List.filter_cons_of_pos (by simp [hpk]), getLast?_cons_eq_or, ← ih]
      simp only [lastMatch]
      cases hl : lastMatch ps k with
      | some q => simp [Option.or]
      | none => simp [hpk, Option.or]
    · rw [List.filter_cons_of_neg (by simp [hpk]), ← ih]
      simp only [lastMatch]
      cases hl : lastMatch ps k with
      | some q => rfl
      | none => simp [hpk]

/--
C4: the Deduplicator's output is never longer than its input; the ids of
the surviving records are pairwise distinct; and a record survives exactly
when its id is non-empty and it is the last-seen record with that id in the
input's iteration order (so for duplicated non-empty ids, the last
occurrence wins).
-/
theorem removeDuplicateProducts_spec (ps : List Product) :
    (removeDuplicateProducts ps).length ≤ ps.length ∧
    ((removeDuplicateProducts ps).map Product.id).Nodup ∧
    ∀ p : Product, (p ∈ removeDuplicateProducts ps ↔
      p.id ≠ "" ∧ (ps.filter (fun q => q.id = p.id)).getLast? = some p) :=
  ⟨removeDuplicateProducts_length_le ps, removeDuplicateProducts_ids_nodup ps,
    fun p => by
      rw [removeDuplicateProducts_mem_iff, lastMatch_eq_filter_getLast?]⟩

/-- Witness for `removeDuplicateProducts_spec`, on the claim's scenario:
two records share `id="42"` with different names — exactly one survives,
the later-encountered one. -/
theorem removeDuplicateProducts_spec_witness :
    rec42B ∈ removeDuplicateProducts [rec42A, rec42B] ∧
    rec42A ∉ removeDuplicateProducts [rec42A, rec42B] ∧
    (removeDuplicateProducts [rec42A, rec42B]).length = 1 := by
  refine ⟨((removeDuplicateProducts_spec [rec42A, rec42B]).2.2 rec42B).mpr
    ⟨by decide, by decide⟩, by decide, by decide⟩

/--
C6 (amended): records with an empty id are excluded from deduplication by
being dropped — no record with empty id ever appears in the Deduplicator's
output (the result-set assembly in `main` replaces the harvested slice with
this output, so such records do not survive it).
-/
theorem removeDuplicateProducts_no_empty_id (ps : List Product) (q : Product)
    (h : q ∈ removeDuplicateProducts ps) : q.id ≠ "" :=
  ((removeDuplicateProducts_mem_iff ps q).mp h).1

/-- Witness for `removeDuplicateProducts_no_empty_id`. -/
theorem removeDuplicateProducts_no_empty_id_witness : prodStub.id ≠ "" :=
  removeDuplicateProducts_no_empty_id [prodStub] prodStub (by decide)

/--
Counterexample to C6 as stated: a record with empty id present in the
input does not appear in the Deduplicator's output at all — the loop
`continue`s past it and the output is built solely from the keyed map.
-/
theorem emptyId_dropped_by_dedup :
    removeDuplicateProducts [emptyIdProd] = [] ∧
    emptyIdProd ∉ removeDuplicateProducts [emptyIdProd] := by
  constructor
  · decide
  · decide

/-! ## Enrichment Merger, per record (C5) -/

/--
C5: per record, enrichment is monotone and failure-safe — if the detail
fetch errors the record is returned entirely unchanged; the description
changes only when the fetch succeeded with a non-empty description (which
then becomes the record's description); the features change only when the
fetch succeeded with a non-empty feature list.  In particular a record with
non-empty description whose fetch fails keeps its description.
-/
theorem enrichOne_spec (fetchDetail : String → Except GoError Product)
    (prod : Product) :
    (∀ e, fetchDetail prod.url = Except.error e →
      enrichOne fetchDetail prod = prod) ∧
    ((enrichOne fetchDetail prod).description ≠ prod.description →
      ∃ d, fetchDetail prod.url = Except.ok d ∧ d.description ≠ "" ∧
        (enrichOne fetchDetail prod).description = d.description) ∧
    ((enrichOne fetchDetail prod).features ≠ prod.features →
      ∃ d, fetchDetail prod.url = Except.ok d ∧ 0 < d.features.length ∧
        (enrichOne fetchDetail prod).features = d.features) := by
  by_cases hskip : 0 < prod.features.length ∧ prod.description ≠ ""
  · have he : enrichOne fetchDetail prod = prod := by
      simp [enrichOne, hskip]
    exact ⟨fun e _ => he, fun hc => absurd (by rw [he]) hc,
      fun hc => absurd (by rw [he]) hc⟩
  · cases hf : fetchDetail prod.url with
    | error e =>
      have he : enrichOne fetchDetail prod = prod := by
        simp [enrichOne, hskip, hf]
      exact ⟨fun _ _ => he, fun hc => absurd (by rw [he]) hc,
        fun hc => absurd (by rw [he]) hc⟩
    | ok d =>
      have hdesc : (enrichOne fetchDetail prod).description =
          if d.description ≠ "" then d.description else prod.description := by
        simp only [enrichOne, if_neg hskip, hf]
        split_ifs <;> rfl
      have hfeat : (enrichOne fetchDetail prod).features =
          if 0 < d.features.length then d.features else prod.features := by
        simp only [enrichOne, if_neg hskip, hf]
        split_ifs <;> rfl
      refine ⟨fun e hfe => by simp at hfe, ?_, ?_⟩
      · intro hne
        by_cases hd : d.description = ""
        · rw [hdesc, if_neg (not_not_intro hd)] at hne
          exact absurd rfl hne
        · exact ⟨d, rfl, hd, by rw [hdesc, if_pos hd]⟩
      · intro hne
        by_cases hft : 0 < d.features.length
        · exact ⟨d, rfl, hft, by rw [hfeat, if_pos hft]⟩
        · rw [hfeat, if_neg hft] at hne
          exact absurd rfl hne

/-- Witness for `enrichOne_spec`: a failing detail fetch leaves the record,
and in particular its non-empty description, unchanged. -/
theorem enrichOne_spec_witness :
    enrichOne fetchFail prodY = prodY ∧ prodY.description = "Y" :=
  ⟨(enrichOne_spec fetchFail prodY).1 GoError.parseFail rfl, rfl⟩

/-! ## Fetcher retry/backoff (C7) -/

/-- When every attempt in the window fails, the retry loop performs all its
attempts, sleeps `delay * attemptNumber` after each failed attempt
(1-indexed), and ends with the last underlying error. -/
theorem retryAux_all_fail {R : Type} (attempt : Nat → Except String R)
    (d : Nat) (f : Nat → String) :
    ∀ (n i : Nat) (le : String),
      (∀ j, i ≤ j → j < i + n → attempt j = Except.error (f j)) →
      retryAux attempt d n i le =
        (RetryResult.exhausted (if n = 0 then le else f (i + n - 1)), n,
          (List.range n).map (fun j => d * (i + j + 1))) := by
  intro n
  induction n with
  | zero => intro i le _; simp [retryAux]
  | succ n ih =>
    intro i le h
    have hi : attempt i = Except.error (f i) := h i (le_refl i) (by omega)
    have hrec := ih (i + 1) (f i) (fun j hj1 hj2 => h j (by omega) (by omega))
    simp only [retryAux, hi, hrec]
    rw [Prod.mk.injEq, Prod.mk.injEq]
    refine ⟨?_, rfl, ?_⟩
    · by_cases hn : n = 0
      · simp [hn]
      · rw [if_neg hn, if_neg (Nat.succ_ne_zero n)]
        have harg : i + 1 + n - 1 = i + (n + 1) - 1 := by omega
        rw [harg]
    · simp only [List.range_succ_eq_map, List.map_cons, List.map_map]
      have hhead : d * (i + 0 + 1) = d * (i + 1) := by ring
      have htail : List.map ((fun j => d * (i + j + 1)) ∘ Nat.succ)
          (List.range n) = List.map (fun j => d * (i + 1 + j + 1))
          (List.range n) :=
        List.map_congr_left (fun j _ => by
          simp only [Function.comp_apply, Nat.succ_eq_add_one]
          ring)
      rw [hhead, htail]

/--
C7: with `maxRetries = 3` and every attempt failing, `doRequestWithRetry`
performs exactly 3 attempts, sleeps the linear backoff delays `d·1`, `d·2`,
`d·3` in that order (the third sleep happens after the final attempt,
before returning), and hands the caller the terminal error wrapping the
last attempt's failure.
-/
theorem doRequestWithRetry_three_failures {R : Type}
    (attempt : Nat → Except String R) (d : Nat) (f : Nat → String)
    (h : ∀ i, i < 3 → attempt i = Except.error (f i)) :
    doRequestWithRetry attempt 3 d =
      (RetryResult.exhausted (f 2), 3, [d * 1, d * 2, d * 3]) := by
  have hall := retryAux_all_fail attempt d f 3 0 ""
    (fun j _ hj => h j (by omega))
  rw [doRequestWithRetry, hall]
  norm_num [List.range_succ]

/-- Witness for `doRequestWithRetry_three_failures` with `d = 500` ms (the
program's default delay). -/
theorem doRequestWithRetry_three_failures_witness :
    doRequestWithRetry attemptBoom 3 500 =
      (RetryResult.exhausted "boom", 3, [500, 1000, 1500]) := by
  have h := doRequestWithRetry_three_failures attemptBoom 500
    (fun _ => "boom") (fun i _ => rfl)
  simpa using h

/-! ## Non-2xx status handling (C8) -/

/-- The page loop never looks at the HTTP status of a category-page
response. -/
theorem walkLoop_ignores_status (site site' : Int → FetchOutcome)
    (category : Category) (hs : ∀ p, sameIgnoringStatus (site p) (site' p)) :
    ∀ (fuel : Nat) (pageNum : Int),
      walkLoop site category fuel pageNum =
        walkLoop site' category fuel pageNum := by
  intro fuel
  induction fuel with
  | zero => intro p; rfl
  | succ n ih =>
    intro p
    have hp := hs p
    simp only [walkLoop]
    cases h1 : site p with
    | netError e =>
      cases h2 : site' p with
      | netError e' =>
        rw [h1, h2] at hp
        simp only [sameIgnoringStatus] at hp
        rw [hp]
      | response st' parsed' =>
        rw [h1, h2] at hp
        simp only [sameIgnoringStatus] at hp
    | response st parsed =>
      cases h2 : site' p with
      | netError e' =>
        rw [h1, h2] at hp
        simp only [sameIgnoringStatus] at hp
      | response st' parsed' =>
        rw [h1, h2] at hp
        simp only [sameIgnoringStatus] at hp
        subst hp
        rw [ih (p + 1)]

/--
C8 (amended): a non-2xx HTTP status is surfaced as a distinct bad-status
error on the catalog-page fetch (`getCategories`) and on detail-page
fetches (`getProductDetails`), aborting only the owning operation, and a
response — whatever its status — never consumes a retry; but the
category-page fetches of the Category Walker perform no status check at
all: the walk's outcome depends only on the fetched documents, never on
their statuses, so a non-2xx category page is parsed like any other page
rather than aborting the walk.
-/
theorem badStatus_handling :
    (∀ (resp : DetailResponse) (url : GoStr), resp.status ≠ 200 →
      getProductDetails (RetryResult.success resp) url =
        DetailResult.failed (GoError.badStatus resp.status)) ∧
    (∀ resp : CatalogResponse, resp.status ≠ 200 →
      getCategories (RetryResult.success resp) =
        Except.error (GoError.badStatus resp.status)) ∧
    (∀ (attempt : Nat → Except String Nat) (r m d : Nat), 0 < m →
      attempt 0 = Except.ok r →
      doRequestWithRetry attempt m d = (RetryResult.success r, 1, [])) ∧
    (∀ (site site' : Int → FetchOutcome) (category : Category)
      (startPage endPage : Int),
      (∀ p, sameIgnoringStatus (site p) (site' p)) →
      getProductsFromCategory site category startPage endPage =
        getProductsFromCategory site' category startPage endPage) := by
  refine ⟨?_, ?_, ?_, ?_⟩
  · intro resp url h
    simp [getProductDetails, h]
  · intro resp h
    simp [getCategories, h]
  · intro attempt r m d hm h0
    cases m with
    | zero => omega
    | succ m => simp [doRequestWithRetry, retryAux, h0]
  · intro site site' category startPage endPage hs
    simp only [getProductsFromCategory]
    rw [walkLoop_ignores_status site site' category hs]

/-- Witness for `badStatus_handling`: a 404 detail response becomes the
distinct bad-status error; a 500 catalog response likewise; a first-attempt
response is returned after exactly one attempt with no backoff sleeps; and
a walk over a site whose statuses are all 404 equals the walk over the same
site with statuses 200. -/
theorem badStatus_handling_witness :
    getProductDetails (RetryResult.success ⟨404, Except.ok detailDoc0⟩)
        "https://www.stanki.ru/catalog/wood/item_1/".toList =
      DetailResult.failed (GoError.badStatus 404) ∧
    getCategories (RetryResult.success ⟨500, Except.ok [cat0]⟩) =
      Except.error (GoError.badStatus 500) ∧
    doRequestWithRetry (fun _ => Except.ok 7) 2 500 =
      (RetryResult.success 7, 1, []) ∧
    getProductsFromCategory
        (fun _ => FetchOutcome.response 404 (Except.ok emptyDoc)) cat0 1 0 =
      getProductsFromCategory siteEmpty cat0 1 0 := by
  refine ⟨badStatus_handling.1 _ _ (by norm_num),
    badStatus_handling.2.1 _ (by norm_num),
    badStatus_handling.2.2.1 _ 7 2 500 (by norm_num) rfl,
    badStatus_handling.2.2.2 _ _ cat0 1 0 (fun p => ?_)⟩
  simp [sameIgnoringStatus, siteEmpty]

/--
Counterexample to C8 as stated: the claim says a non-2xx status on a
category-page fetch is turned into a bad-status error that aborts the
owning category walk.  `getProductsFromCategory` never inspects
`resp.StatusCode`: with every page returning status 404, the walk completes
normally with the page's records and no error.
-/
theorem walk_ignores_bad_status :
    getProductsFromCategory site404 cat0 1 0 = (Except.ok [prodStub], 1) := by
  decide

/-! ## Encoding Normalizer override condition (C9) -/

/--
C9 (amended): `getUTF8Reader` overrides the sniffed charset with
Windows-1251 exactly when the *raw bytes* contain the UTF-8
replacement-character byte sequence `EF BF BD` (the code's two literal
checks, `"\xef\xbf\xbd"` and `"�"`, denote this same byte sequence);
otherwise the sniffed encoding is used.  No decoding with the sniffed
charset is performed before the check.
-/
theorem getUTF8ReaderEnc_spec (sniff : List Nat → Enc) (b : List Nat) :
    (goContains b replacementMarker = true →
      getUTF8ReaderEnc sniff b = Enc.windows1251) ∧
    (goContains b replacementMarker = false →
      getUTF8ReaderEnc sniff b = sniff b) := by
  have henc : utf8Encode [0xFFFD] = replacementMarker := by decide
  constructor
  · intro h
    simp [getUTF8ReaderEnc, h]
  · intro h
    simp [getUTF8ReaderEnc, henc, h]

/-- Witness for `getUTF8ReaderEnc_spec`: bytes containing the marker force
Windows-1251; marker-free bytes keep the sniffed encoding. -/
theorem getUTF8ReaderEnc_spec_witness :
    getUTF8ReaderEnc (fun _ => Enc.windows1252) [0x41, 0xEF, 0xBF, 0xBD] =
      Enc.windows1251 ∧
    getUTF8ReaderEnc (fun _ => Enc.windows1252) [0x41, 0x42] =
      Enc.windows1252 :=
  ⟨(getUTF8ReaderEnc_spec (fun _ => Enc.windows1252)
      [0x41, 0xEF, 0xBF, 0xBD]).1 (by decide),
    (getUTF8ReaderEnc_spec (fun _ => Enc.windows1252) [0x41, 0x42]).2
      (by decide)⟩

/--
Counterexample to C9 as stated: take raw bytes `EF BF BD` and a sniffer
that reports Windows-1252 (the sniffer's usual fallback).  Decoding these
bytes with the sniffed Windows-1252 yields `ï¿½` — re-encoded to UTF-8 it
contains no replacement-character marker — so by the claim the sniffed
encoding must be kept; the code nevertheless overrides with Windows-1251,
because it looks for the marker bytes in the *raw* input, not in a
re-encoded sniffed decoding.
-/
theorem sniffed_clean_but_overridden :
    specSniffYieldsMarkers Enc.windows1252 replacementMarker = false ∧
    getUTF8ReaderEnc (fun _ => Enc.windows1252) replacementMarker =
      Enc.windows1251 ∧
    Enc.windows1251 ≠ Enc.windows1252 := by
  refine ⟨by decide, by decide, by decide⟩

/-! ## Detail-page ID extraction can panic (C10) -/

/-- The ID-derivation step panics exactly on URLs with no `/`: Go's
`Split` then yields a single piece and `parts[len(parts)-2]` indexes
position `-1`. -/
theorem idFromURL_eq_none_iff (url : GoStr) :
    idFromURL url = none ↔ goContains url slashStr = false := by
  have hne : slashStr ≠ [] := by decide
  have hnil := goSplit_ne_nil url slashStr hne
  have hgt := goSplit_length_gt_one url slashStr hne
  rcases hp : goSplit url slashStr with _ | ⟨a, rest⟩
  · exact absurd hp hnil
  · rw [hp] at hgt
    simp only [idFromURL]
    rw [hp]
    cases rest with
    | nil =>
      have hcontains : goContains url slashStr = false := by
        rcases hc : goContains url slashStr
        · rfl
        · have h1 := hgt.mpr hc
          simp at h1
      simp [goSliceIdx?, hcontains]
    | cons b rest' =>
      have hcontains : goContains url slashStr = true := hgt.mp (by simp)
      have hcond : (0 : Int) ≤ ((a :: b :: rest').length : Int) - 2 ∧
          (((a :: b :: rest').length : Int) - 2).toNat <
            (a :: b :: rest').length := by
        simp only [List.length_cons]
        omega
      have hidx : goSliceIdx? (a :: b :: rest')
          (((a :: b :: rest').length : Int) - 2) =
            some ((a :: b :: rest').get ⟨((((a :: b :: rest').length : Int)
              - 2)).toNat, hcond.2⟩) := dif_pos hcond
      rw [if_pos (by simp), hidx]
      simp [hcontains]

/--
C10: under a successful fetch (status 200) and successful parse,
`getProductDetails` panics — an out-of-range slice index, not an error
return — precisely when its URL argument contains no `/` character; it is
total only under the precondition that the URL contains at least one `/`.
-/
theorem getProductDetails_panics_iff (resp : DetailResponse) (url : GoStr)
    (hstatus : resp.status = 200) (doc : DetailDoc)
    (hparsed : resp.parsed = Except.ok doc) :
    (getProductDetails (RetryResult.success resp) url =
        DetailResult.panicked ↔
      goContains url slashStr = false) := by
  have hiff := idFromURL_eq_none_iff url
  simp only [getProductDetails, hstatus, hparsed, ne_eq, not_true_eq_false,
    if_false, reduceIte]
  rcases hid : idFromURL url with _ | s
  · simp [hiff.mp hid]
  · constructor
    · intro hcon
      exact absurd hcon (by simp)
    · intro hcon
      have h1 := hiff.mpr hcon
      rw [hid] at h1
      exact absurd h1 (by simp)

/-- Witness for `getProductDetails_panics_iff`: a URL with no `/` whose
fetch and parse succeed makes the operation panic. -/
theorem getProductDetails_panics_iff_witness :
    getProductDetails (RetryResult.success ⟨200, Except.ok detailDoc0⟩)
      "nohere".toList = DetailResult.panicked :=
  (getProductDetails_panics_iff ⟨200, Except.ok detailDoc0⟩ "nohere".toList
    rfl detailDoc0 rfl).mpr (by decide)

